import Mathlib

/-!
Verification of the delivery-price core of the `wolt_challenge` repository.

The development shallowly embeds the two algorithmic components:

* `services/delivery_cost.py` — `process_total_cost`: sorting of the fee
  schedule, the three distance-range lookup strategies (linear scan `O_n`,
  per-meter lookup table `O_1`, binary search `O_Log_n`), and the price
  breakdown arithmetic.  Python integers are modelled as `ℤ`; the floating
  division `(b * distance) / 10` is modelled exactly in `ℚ` and Python's
  `int(...)` truncation as `pyInt`.
* `services/distance_calculator.py` — `calculate_distance`: the planar
  (`SIMPLE`) and haversine (`HAVERSINE`) geodesic formulas over `ℝ`.

Status constants come from the code's own docstrings: `SUCCESS = 200`,
`FAILURE = 400`, `SIMPLE = 0`, `HAVERSINE = 1`.
-/

namespace Wolt

/-- One entry of the venue's `distance_ranges` schedule, as consumed by
`process_total_cost` in `services/delivery_cost.py`: fields `min`, `max`,
`a`, `b`.  `max = 0` is the sentinel for the unbounded final tier. -/
structure DistRange where
  min : ℤ
  max : ℤ
  a : ℤ
  b : ℤ
deriving DecidableEq

/-- First component of the Python sort key `(x['max'] == 0, x['max'])`,
with `False < True` rendered as `0 < 1`. -/
def sKey (r : DistRange) : ℤ := if r.max = 0 then 1 else 0

/-- The order used by `sorted(distance_ranges_dict, key=lambda x: (x['max'] == 0, x['max']))`:
lexicographic on the pair `(max == 0, max)`. -/
def rangeLE (r s : DistRange) : Prop :=
  sKey r < sKey s ∨ (sKey r = sKey s ∧ r.max ≤ s.max)

instance : DecidableRel rangeLE := fun r s => by
  unfold rangeLE; infer_instance

instance : IsTotal DistRange rangeLE := by
  constructor
  intro r s
  unfold rangeLE
  omega

instance : IsTrans DistRange rangeLE := by
  constructor
  intro r s t
  unfold rangeLE
  omega

/-- `sorted(distance_ranges_dict, key=lambda x: (x['max'] == 0, x['max']))`
(line 40 of `services/delivery_cost.py`); Python's `sorted` is a stable
sort by a `≤`-comparison on the key, which insertion sort realises. -/
def sortRanges (l : List DistRange) : List DistRange := List.insertionSort rangeLE l

/-- The three lookup strategies selected by the `method` string argument of
`process_total_cost` (config constants `O_n`, `O_1`, `O_Log_n`). -/
inductive CostMethod where
  | O_n | O_1 | O_Log_n
deriving DecidableEq

/-- Outcome of the `O_n` linear-scan loop (lines 53-62): the loop either
returns early on a sentinel entry, breaks with the entry's `(a, b)`, or
falls through leaving the initial `a = 0`, `b = 0`. -/
inductive ScanOut where
  | hit (a b : ℤ)
  | sentinelStop
  | fellThrough
deriving DecidableEq

/-- The `O_n` loop body: `for dist_range in distance_ranges_dict:` with the
sentinel check `dist_range["max"] == 0` first, then
`temp_distance = distance - dist_range["max"]; if temp_distance <= 0: break`. -/
def scanRanges (d : ℤ) : List DistRange → ScanOut
  | [] => .fellThrough
  | r :: rs =>
    if r.max = 0 then .sentinelStop
    else if d - r.max ≤ 0 then .hit r.a r.b
    else scanRanges d rs

/-- Final contents of `lookup_table[d]` after the `O_1` preprocessing loop
(lines 74-78): ranges are written in list order over the inclusive index
span `range(r['min'], r['max'] + 1)`, so a later range overwrites an
earlier one where the spans overlap.  Indices are taken non-negative per
the data model (§3: `min` is a non-negative integer). -/
def tableGet (d : ℤ) (rs : List DistRange) : Option (ℤ × ℤ) :=
  rs.foldl (fun acc r => if r.min ≤ d ∧ d ≤ r.max then some (r.a, r.b) else acc) none

/-- Python's `max(...)` over a non-empty list of integers. -/
def pymax : List ℤ → ℤ
  | [] => 0
  | x :: t => t.foldl max x

/-- The `lo`/`hi` loop of CPython's `bisect.bisect_right`:
`while lo < hi: mid = (lo+hi)//2; if x < a[mid]: hi = mid else: lo = mid+1`. -/
def bisectAux (a : List ℤ) (x : ℤ) (lo hi : ℕ) : ℕ :=
  if h : lo < hi then
    let mid := (lo + hi) / 2
    if x < a.getD mid 0 then bisectAux a x lo mid
    else bisectAux a x (mid + 1) hi
  else lo
termination_by hi - lo
decreasing_by
  · omega
  · omega

/-- `bisect_right(a, x)` with the default bounds `lo = 0`, `hi = len(a)`. -/
def bisect_right (a : List ℤ) (x : ℤ) : ℕ := bisectAux a x 0 a.length

/-- Python's `int(...)` applied to a (here, exactly represented) number:
truncation toward zero. -/
def pyInt (q : ℚ) : ℤ := if 0 ≤ q then ⌊q⌋ else ⌈q⌉

/-- The integer fields of the `endpoint_response` dict built at lines
106-114 of `services/delivery_cost.py`. -/
structure Breakdown where
  total_price : ℤ
  small_order_surcharge : ℤ
  cart_value : ℤ
  delivery_fee : ℤ
  delivery_distance : ℤ
deriving DecidableEq

/-- Result of `process_total_cost`.  `ok bd` is `(endpoint_response, SUCCESS, ...)`;
`rangeFail boundary` is `({}, FAILURE, delivery_error)` where the
`delivery_error` message cites `sorted_ranges[-2]["max"]` as the deliverable
boundary (line 45); `err` is `({}, FAILURE, ...)` produced by one of the
`except` handlers (lines 120-133). -/
inductive CostResult where
  | ok (bd : Breakdown)
  | rangeFail (boundary : ℤ)
  | err
deriving DecidableEq

/-- Lines 100-114: `small_order_surcharge = max(0, order_minimum_no_surcharge - cart_value)`,
`delivery_fee = a + (b * distance) / 10 + base_price_delivery_fee`,
`total_price = cart_value + small_order_surcharge + delivery_fee`, each
output field passed through `int(...)`. -/
def mkBreakdown (cart d mNS base a b : ℤ) : Breakdown :=
  let surcharge : ℤ := max 0 (mNS - cart)
  let fee : ℚ := (a : ℚ) + (b : ℚ) * (d : ℚ) / 10 + (base : ℚ)
  let total : ℚ := (cart : ℚ) + (surcharge : ℚ) + fee
  { total_price := pyInt total
    small_order_surcharge := surcharge
    cart_value := cart
    delivery_fee := pyInt fee
    delivery_distance := d }

/-- The `(a, b)` fee parameters resolved from the sorted schedule by each
method branch of `process_total_cost` (`none` = the branch returned the
`delivery_error` failure).  `O_n`: lines 53-62 (falling through the loop
keeps `a = 0, b = 0`).  `O_1`: lines 74-85.  `O_Log_n`: lines 87-98, where
`distance_ranges_dict[index - 1]` with `index = 0` is Python's negative
indexing of the last element. -/
def resolve (d : ℤ) (sorted : List DistRange) (method : CostMethod) : Option (ℤ × ℤ) :=
  match method with
  | .O_n =>
    match scanRanges d sorted with
    | .hit a b => some (a, b)
    | .sentinelStop => none
    | .fellThrough => some (0, 0)
  | .O_1 =>
    let maxDistance := pymax (sorted.map (·.max))
    if d ≤ maxDistance then tableGet d sorted else none
  | .O_Log_n =>
    let maxValues := sorted.map (·.max)
    let index := bisect_right maxValues d
    if index = maxValues.length then none
    else
      let r := sorted.getD (if index = 0 then sorted.length - 1 else index - 1) ⟨0, 0, 0, 0⟩
      some (r.a, r.b)

/-- `process_total_cost` of `services/delivery_cost.py` (lines 35-133).
The `delivery_error` message is built from `distance_ranges_dict[-2]` right
after sorting, so a schedule with fewer than two entries raises an
`IndexError` there, which the generic `except Exception` handler turns
into `({}, FAILURE, ...)` — modelled by the length guard returning `.err`. -/
def process_total_cost (cart d mNS base : ℤ) (ranges : List DistRange)
    (method : CostMethod) : CostResult :=
  let sorted := sortRanges ranges
  if sorted.length < 2 then .err
  else
    let boundary := (sorted.getD (sorted.length - 2) ⟨0, 0, 0, 0⟩).max
    match resolve d sorted method with
    | none => .rangeFail boundary
    | some (a, b) => .ok (mkBreakdown cart d mNS base a b)

/-- Modelled from the spec: the default `method` value `METHOD_RANGE_PARSING`
is imported from `utils/config_loader.py`, which does not define it (its
value would come from the absent `config/config.yaml`); spec §4.2 states
"The default/expected implementation is binary search for efficiency". -/
def METHOD_RANGE_PARSING : CostMethod := .O_Log_n

/-- The fee schedule of the spec's worked scenario (§8), also used by the
repository's own `tests/test_delivery_cost.py`. -/
def scenarioSchedule : List DistRange :=
  [⟨0, 500, 0, 0⟩, ⟨500, 1000, 100, 0⟩, ⟨1000, 1500, 200, 0⟩,
   ⟨1500, 2000, 200, 1⟩, ⟨2000, 0, 0, 0⟩]

/-- The largest `max` among the non-sentinel entries of a schedule — the
"deliverable boundary" the out-of-range message cites. -/
def largestFiniteMax (rs : List DistRange) : ℤ :=
  pymax ((rs.filter (fun r => r.max ≠ 0)).map (·.max))

/-- Status constants per the code's docstrings. -/
def SUCCESS : ℤ := 200

/-- Status constants per the code's docstrings. -/
def FAILURE : ℤ := 400

/-- Distance-method constant per the docstring of `calculate_distance`. -/
def SIMPLE : ℤ := 0

/-- Distance-method constant per the docstring of `calculate_distance`. -/
def HAVERSINE : ℤ := 1

noncomputable section

open scoped Classical

/-- `math.radians`. -/
def radians (x : ℝ) : ℝ := x * Real.pi / 180

/-- `math.atan2(y, x)` with the standard C library case split. -/
def atan2 (y x : ℝ) : ℝ :=
  if 0 < x then Real.arctan (y / x)
  else if x < 0 ∧ 0 ≤ y then Real.arctan (y / x) + Real.pi
  else if x < 0 then Real.arctan (y / x) - Real.pi
  else if 0 < y then Real.pi / 2
  else if y < 0 then -(Real.pi / 2)
  else 0

/-- Python's `round(...)` to an integer: round half to even. -/
def pyround (x : ℝ) : ℤ :=
  if Int.fract x < 1 / 2 then ⌊x⌋
  else if 1 / 2 < Int.fract x then ⌊x⌋ + 1
  else if Even ⌊x⌋ then ⌊x⌋ else ⌊x⌋ + 1

/-- The haversine branch of `calculate_distance` (lines 32-44 of
`services/distance_calculator.py`), before rounding. -/
def haversine_m (ulat ulon vlat vlon : ℝ) : ℝ :=
  let ulat' := radians ulat
  let ulon' := radians ulon
  let vlat' := radians vlat
  let vlon' := radians vlon
  let delta_lat := vlat' - ulat'
  let delta_lon := vlon' - ulon'
  let a := Real.sin (delta_lat / 2) ^ 2 +
    Real.cos ulat' * Real.cos vlat' * Real.sin (delta_lon / 2) ^ 2
  let c := 2 * atan2 (Real.sqrt a) (Real.sqrt (1 - a))
  (6371 * 1000 : ℝ) * c

/-- The planar (Pythagorean) branch of `calculate_distance` (lines 46-62),
before rounding. -/
def simple_m (ulat ulon vlat vlon : ℝ) : ℝ :=
  let km_per_degree_lat : ℝ := 111.32
  let km_per_degree_lon : ℝ := 111.32
  let delta_lat := vlat - ulat
  let delta_lon := vlon - ulon
  let y_distance := delta_lat * km_per_degree_lat
  let x_distance := delta_lon * km_per_degree_lon * Real.cos (radians ulat)
  Real.sqrt (x_distance ^ 2 + y_distance ^ 2) * 1000

/-- `calculate_distance` of `services/distance_calculator.py`, returning the
rounded meter distance and the status code (the descriptive message is not
modelled). -/
def calculate_distance (ulat ulon vlat vlon : ℝ) (method : ℤ) : ℤ × ℤ :=
  if method = HAVERSINE then (pyround (haversine_m ulat ulon vlat vlon), SUCCESS)
  else if method = SIMPLE then (pyround (simple_m ulat ulon vlat vlon), SUCCESS)
  else (0, FAILURE)

end

end Wolt

namespace Wolt

/-! ### Generic helper lemmas -/

theorem getD_get {α : Type} (l : List α) (n : ℕ) (d : α) (h : n < l.length) :
    l.getD n d = l.get ⟨n, h⟩ := by
  rw [List.getD_eq_get?, List.get?_eq_get h]
  rfl

theorem pyInt_intCast (n : ℤ) : pyInt (n : ℚ) = n := by
  unfold pyInt
  split <;> simp

theorem le_foldl_max_init (t : List ℤ) : ∀ acc : ℤ, acc ≤ t.foldl max acc := by
  induction t with
  | nil => intro acc; simp
  | cons y t ih =>
    intro acc
    calc acc ≤ max acc y := le_max_left _ _
    _ ≤ t.foldl max (max acc y) := ih _

theorem le_foldl_max (t : List ℤ) : ∀ acc x : ℤ, x ∈ t → x ≤ t.foldl max acc := by
  induction t with
  | nil => intro acc x hx; simp at hx
  | cons y t ih =>
    intro acc x hx
    rcases List.mem_cons.mp hx with h | h
    · subst h
      calc x ≤ max acc x := le_max_right _ _
      _ ≤ t.foldl max (max acc x) := le_foldl_max_init _ _
    · exact ih _ x h

theorem foldl_max_mem (t : List ℤ) : ∀ acc : ℤ, t.foldl max acc = acc ∨ t.foldl max acc ∈ t := by
  induction t with
  | nil => intro acc; left; rfl
  | cons y t ih =>
    intro acc
    rcases ih (max acc y) with h | h
    · rcases max_choice acc y with hm | hm
      · left; simpa [hm] using h
      · right; simp only [List.foldl_cons]; rw [h, hm]; exact List.mem_cons_self _ _
    · right; exact List.mem_cons_of_mem _ h

theorem pymax_mem (l : List ℤ) (h : l ≠ []) : pymax l ∈ l := by
  cases l with
  | nil => exact absurd rfl h
  | cons x t =>
    rcases foldl_max_mem t x with h' | h'
    · rw [pymax, h']; exact List.mem_cons_self _ _
    · exact List.mem_cons_of_mem _ h'

theorem le_pymax (l : List ℤ) (x : ℤ) (hx : x ∈ l) : x ≤ pymax l := by
  cases l with
  | nil => simp at hx
  | cons y t =>
    rcases List.mem_cons.mp hx with h | h
    · subst h; exact le_foldl_max_init _ _
    · exact le_foldl_max _ _ _ h

theorem scanRanges_sentinelStop (d : ℤ) (l : List DistRange)
    (hall : ∀ r ∈ l, r.max ≠ 0 → r.max < d)
    (hs : ∃ s ∈ l, s.max = 0) :
    scanRanges d l = .sentinelStop := by
  induction l with
  | nil => obtain ⟨s, hm, _⟩ := hs; simp at hm
  | cons r t ih =>
    by_cases h0 : r.max = 0
    · simp [scanRanges, h0]
    · have hlt : r.max < d := hall r (List.mem_cons_self _ _) h0
      have hskip : ¬ (d - r.max ≤ 0) := by omega
      simp only [scanRanges, if_neg h0, if_neg hskip]
      apply ih
      · intro x hx hx0; exact hall x (List.mem_cons_of_mem _ hx) hx0
      · obtain ⟨s, hm, hs0⟩ := hs
        rcases List.mem_cons.mp hm with h | h
        · subst h; exact absurd hs0 h0
        · exact ⟨s, h, hs0⟩

theorem scanRanges_fellThrough (d : ℤ) (l : List DistRange)
    (hall : ∀ r ∈ l, r.max ≠ 0 ∧ r.max < d) :
    scanRanges d l = .fellThrough := by
  induction l with
  | nil => rfl
  | cons r t ih =>
    obtain ⟨h0, hlt⟩ := hall r (List.mem_cons_self _ _)
    have hskip : ¬ (d - r.max ≤ 0) := by omega
    simp only [scanRanges, if_neg h0, if_neg hskip]
    exact ih (fun x hx => hall x (List.mem_cons_of_mem _ hx))

theorem bisectAux_all_le (a : List ℤ) (x : ℤ) (hall : ∀ y ∈ a, y ≤ x) :
    ∀ n lo hi, hi - lo ≤ n → lo ≤ hi → hi ≤ a.length → bisectAux a x lo hi = hi := by
  intro n
  induction n with
  | zero =>
    intro lo hi h1 h2 _
    have heq : lo = hi := by omega
    subst heq
    rw [bisectAux]
    simp
  | succ n ih =>
    intro lo hi h1 h2 h3
    rw [bisectAux]
    by_cases hlt : lo < hi
    · rw [dif_pos hlt]
      have hmidlt : (lo + hi) / 2 < hi := by omega
      have hmem : a.getD ((lo + hi) / 2) 0 ∈ a := by
        have hm : (lo + hi) / 2 < a.length := by omega
        rw [getD_get a _ _ hm]
        exact List.get_mem _ _ _
      have hnot : ¬ x < a.getD ((lo + hi) / 2) 0 := not_lt.mpr (hall _ hmem)
      simp only [hnot, if_false]
      exact ih ((lo + hi) / 2 + 1) hi (by omega) (by omega) h3
    · rw [dif_neg hlt]
      omega

theorem bisect_right_all_le (a : List ℤ) (x : ℤ) (hall : ∀ y ∈ a, y ≤ x) :
    bisect_right a x = a.length :=
  bisectAux_all_le a x hall a.length 0 a.length (by omega) (by omega) (by omega)

/-! ### Structure of the sorted schedule -/

theorem sortRanges_perm (l : List DistRange) : (sortRanges l).Perm l :=
  List.perm_insertionSort rangeLE l

theorem sortRanges_sorted (l : List DistRange) : List.Sorted rangeLE (sortRanges l) :=
  List.sorted_insertionSort rangeLE l

theorem sortRanges_length (l : List DistRange) : (sortRanges l).length = l.length :=
  List.length_insertionSort rangeLE l

theorem sortRanges_filter_length (l : List DistRange) (p : DistRange → Bool) :
    ((sortRanges l).filter p).length = (l.filter p).length :=
  ((sortRanges_perm l).filter p).length_eq

theorem exists_sentinel_sorted (rs : List DistRange)
    (hone : (rs.filter fun r => r.max = 0).length = 1) :
    ∃ s ∈ sortRanges rs, s.max = 0 := by
  have hfil : ((sortRanges rs).filter fun r => r.max = 0).length = 1 := by
    rw [sortRanges_filter_length]; exact hone
  cases hfe : (sortRanges rs).filter (fun r => decide (r.max = 0)) with
  | nil => rw [hfe] at hfil; simp at hfil
  | cons s t =>
    have hs : s ∈ (sortRanges rs).filter (fun r => decide (r.max = 0)) := by
      rw [hfe]; exact List.mem_cons_self _ _
    have := List.mem_filter.mp hs
    exact ⟨s, this.1, by simpa using this.2⟩

theorem sortRanges_last_sentinel (rs : List DistRange)
    (hone : (rs.filter fun r => r.max = 0).length = 1)
    (hlen : 2 ≤ rs.length)
    (h : rs.length - 1 < (sortRanges rs).length) :
    ((sortRanges rs).get ⟨rs.length - 1, h⟩).max = 0 := by
  obtain ⟨s, hsL, hs0⟩ := exists_sentinel_sorted rs hone
  obtain ⟨i, hi⟩ := List.mem_iff_get.mp hsL
  by_cases hieq : (i : ℕ) = rs.length - 1
  · have : (sortRanges rs).get ⟨rs.length - 1, h⟩ = s := by
      rw [← hi]; congr 1; exact Fin.ext hieq.symm
    rw [this]; exact hs0
  · have hL : (sortRanges rs).length = rs.length := sortRanges_length rs
    have hilt : i < (⟨rs.length - 1, h⟩ : Fin (sortRanges rs).length) := by
      have := i.isLt
      rw [Fin.lt_def]
      simp only []
      omega
    have hrel := (sortRanges_sorted rs).rel_get_of_lt hilt
    rw [hi] at hrel
    by_cases hy : ((sortRanges rs).get ⟨rs.length - 1, h⟩).max = 0
    · exact hy
    · unfold rangeLE sKey at hrel
      rw [if_pos hs0, if_neg hy] at hrel
      omega

theorem exists_finite_entry (rs : List DistRange)
    (hfin : 1 ≤ (rs.filter fun r => r.max ≠ 0).length) :
    ∃ r ∈ rs, r.max ≠ 0 := by
  cases hfe : rs.filter (fun r => decide (r.max ≠ 0)) with
  | nil => rw [hfe] at hfin; simp at hfin
  | cons r t =>
    have hr : r ∈ rs.filter (fun x => decide (x.max ≠ 0)) := by
      rw [hfe]; exact List.mem_cons_self _ _
    have := List.mem_filter.mp hr
    exact ⟨r, this.1, by simpa using this.2⟩

theorem sortRanges_penultimate (rs : List DistRange)
    (hone : (rs.filter fun r => r.max = 0).length = 1)
    (hlen : 2 ≤ rs.length)
    (h : rs.length - 2 < (sortRanges rs).length) :
    ((sortRanges rs).get ⟨rs.length - 2, h⟩).max ≠ 0 ∧
    (∀ r ∈ rs, r.max ≠ 0 → r.max ≤ ((sortRanges rs).get ⟨rs.length - 2, h⟩).max) := by
  have hL : (sortRanges rs).length = rs.length := sortRanges_length rs
  have hlastlt : rs.length - 1 < (sortRanges rs).length := by omega
  have hlast := sortRanges_last_sentinel rs hone hlen hlastlt
  have hne : sortRanges rs ≠ [] := by
    intro hnil; rw [hnil] at hL; simp at hL; omega
  -- every element of `dropLast` is non-sentinel
  have hdropLen : (sortRanges rs).dropLast.length = rs.length - 1 := by
    rw [List.length_dropLast, hL]
  have hlastget : ((sortRanges rs).getLast hne).max = 0 := by
    rw [List.getLast_eq_get]
    have heq : (sortRanges rs).get ⟨(sortRanges rs).length - 1, by omega⟩ =
        (sortRanges rs).get ⟨rs.length - 1, hlastlt⟩ := by
      congr 1
      apply Fin.ext
      show (sortRanges rs).length - 1 = rs.length - 1
      omega
    rw [heq]
    exact hlast
  have hfilL : ((sortRanges rs).filter fun r => r.max = 0).length = 1 := by
    rw [sortRanges_filter_length]; exact hone
  have hdropfil : ∀ r ∈ (sortRanges rs).dropLast, r.max ≠ 0 := by
    have hsplit := List.dropLast_append_getLast hne
    rw [← hsplit, List.filter_append] at hfilL
    have hlastfil : List.filter (fun r => decide (r.max = 0)) [(sortRanges rs).getLast hne] =
        [(sortRanges rs).getLast hne] := by
      simp [List.filter, hlastget]
    rw [hlastfil, List.length_append, List.length_singleton] at hfilL
    have hzero : (List.filter (fun r => decide (r.max = 0)) (sortRanges rs).dropLast).length = 0 := by
      omega
    rw [List.length_eq_zero] at hzero
    intro r hr
    have := List.filter_eq_nil.mp hzero r hr
    simpa using this
  have hmem2 : (sortRanges rs).get ⟨rs.length - 2, h⟩ ∈ (sortRanges rs).dropLast := by
    have hidx : rs.length - 2 < (sortRanges rs).dropLast.length := by omega
    have hgd : (sortRanges rs).get ⟨rs.length - 2, h⟩ =
        (sortRanges rs).dropLast.get ⟨rs.length - 2, hidx⟩ := by
      rw [List.get_eq_getElem, List.get_eq_getElem]
      exact (List.getElem_dropLast _ _ hidx).symm
    rw [hgd]
    exact List.get_mem _ _ _
  have he0 : ((sortRanges rs).get ⟨rs.length - 2, h⟩).max ≠ 0 := hdropfil _ hmem2
  refine ⟨he0, ?_⟩
  intro r hr hr0
  have hrL : r ∈ sortRanges rs := (sortRanges_perm rs).mem_iff.mpr hr
  obtain ⟨j, hj⟩ := List.mem_iff_get.mp hrL
  by_cases hjlast : (j : ℕ) = rs.length - 1
  · exfalso
    have : (sortRanges rs).get j = (sortRanges rs).get ⟨rs.length - 1, hlastlt⟩ := by
      congr 1; exact Fin.ext hjlast
    rw [hj] at this
    rw [this] at hr0
    exact hr0 hlast
  · by_cases hjpen : (j : ℕ) = rs.length - 2
    · have : (sortRanges rs).get j = (sortRanges rs).get ⟨rs.length - 2, h⟩ := by
        congr 1; exact Fin.ext hjpen
      rw [hj] at this
      rw [this]
    · have hjlt : j < (⟨rs.length - 2, h⟩ : Fin (sortRanges rs).length) := by
        have := j.isLt
        rw [Fin.lt_def]
        simp only []
        omega
      have hrel := (sortRanges_sorted rs).rel_get_of_lt hjlt
      rw [hj] at hrel
      unfold rangeLE sKey at hrel
      rw [if_neg hr0, if_neg he0] at hrel
      omega

theorem boundary_eq_largestFiniteMax (rs : List DistRange)
    (hone : (rs.filter fun r => r.max = 0).length = 1)
    (hfin : 1 ≤ (rs.filter fun r => r.max ≠ 0).length)
    (hlen : 2 ≤ rs.length)
    (h : rs.length - 2 < (sortRanges rs).length) :
    ((sortRanges rs).get ⟨rs.length - 2, h⟩).max = largestFiniteMax rs := by
  obtain ⟨he0, hub⟩ := sortRanges_penultimate rs hone hlen h
  have hne : ((rs.filter fun r => r.max ≠ 0).map (·.max)) ≠ [] := by
    intro hnil
    have hl := congrArg List.length hnil
    rw [List.length_map, List.length_nil] at hl
    omega
  have hBle : largestFiniteMax rs ≤ ((sortRanges rs).get ⟨rs.length - 2, h⟩).max := by
    have hmem := pymax_mem _ hne
    obtain ⟨r', hr', hval⟩ := List.mem_map.mp hmem
    have := List.mem_filter.mp hr'
    rw [largestFiniteMax, ← hval]
    exact hub r' this.1 (by simpa using this.2)
  have heB : ((sortRanges rs).get ⟨rs.length - 2, h⟩).max ≤ largestFiniteMax rs := by
    rw [largestFiniteMax]
    apply le_pymax
    have hmemL : (sortRanges rs).get ⟨rs.length - 2, h⟩ ∈ sortRanges rs := List.get_mem _ _ _
    have hmemrs : (sortRanges rs).get ⟨rs.length - 2, h⟩ ∈ rs := (sortRanges_perm rs).subset hmemL
    have hfilmem : (sortRanges rs).get ⟨rs.length - 2, h⟩ ∈
        rs.filter (fun r => decide (r.max ≠ 0)) := by
      apply List.mem_filter.mpr
      refine ⟨hmemrs, ?_⟩
      simpa using he0
    exact List.mem_map_of_mem (fun r => r.max) hfilmem
  omega

theorem resolve_none_of_out_of_range (rs : List DistRange) (d : ℤ)
    (hone : (rs.filter fun r => r.max = 0).length = 1)
    (hpos : ∀ r ∈ rs, 0 ≤ r.max)
    (hfin : 1 ≤ (rs.filter fun r => r.max ≠ 0).length)
    (hlen : 2 ≤ rs.length)
    (hd : ∀ r ∈ rs, r.max ≠ 0 → r.max < d) :
    ∀ method, resolve d (sortRanges rs) method = none := by
  have hperm := sortRanges_perm rs
  have hdpos : 0 < d := by
    obtain ⟨r0, hr0, hr00⟩ := exists_finite_entry rs hfin
    have h1 := hpos r0 hr0
    have h2 := hd r0 hr0 hr00
    omega
  have hallmaxlt : ∀ y ∈ (sortRanges rs).map (fun r => r.max), y < d := by
    intro y hy
    obtain ⟨r, hr, hval⟩ := List.mem_map.mp hy
    have hrrs : r ∈ rs := hperm.subset hr
    by_cases h0 : r.max = 0
    · omega
    · have := hd r hrrs h0; omega
  intro method
  match method with
  | .O_n =>
    have hscan : scanRanges d (sortRanges rs) = .sentinelStop := by
      apply scanRanges_sentinelStop
      · intro r hr hr0
        exact hd r (hperm.subset hr) hr0
      · exact exists_sentinel_sorted rs hone
    simp [resolve, hscan]
  | .O_1 =>
    have hnemap : (sortRanges rs).map (fun r => r.max) ≠ [] := by
      intro hnil
      have hl := congrArg List.length hnil
      rw [List.length_map, List.length_nil, sortRanges_length] at hl
      omega
    have hmaxlt : pymax ((sortRanges rs).map (fun r => r.max)) < d :=
      hallmaxlt _ (pymax_mem _ hnemap)
    simp only [resolve]
    rw [if_neg (by omega)]
  | .O_Log_n =>
    have hbis : bisect_right ((sortRanges rs).map (fun r => r.max)) d =
        ((sortRanges rs).map (fun r => r.max)).length :=
      bisect_right_all_le _ d (fun y hy => le_of_lt (hallmaxlt y hy))
    simp [resolve, hbis]

/-- C3: for a schedule with positive-`max` finite entries and exactly one
sentinel entry (`max = 0`), sorting by the key `(max == 0, max)` places the
sentinel last regardless of its insertion position, and for every distance
strictly greater than every finite `max`, `process_total_cost` fails under
every lookup strategy with the out-of-range error citing the largest finite
`max` as the deliverable boundary — the sentinel tier never matches. -/
theorem C3_sentinel_last_and_out_of_range
    (rs : List DistRange) (cart d mNS base : ℤ)
    (hone : (rs.filter fun r => r.max = 0).length = 1)
    (hpos : ∀ r ∈ rs, 0 ≤ r.max)
    (hfin : 1 ≤ (rs.filter fun r => r.max ≠ 0).length)
    (hlen : 2 ≤ rs.length)
    (hd : ∀ r ∈ rs, r.max ≠ 0 → r.max < d) :
    ((sortRanges rs).getD (rs.length - 1) ⟨0, 0, 0, 0⟩).max = 0 ∧
    (∃ r ∈ rs, r.max ≠ 0 ∧ r.max = largestFiniteMax rs) ∧
    (∀ r ∈ rs, r.max ≠ 0 → r.max ≤ largestFiniteMax rs) ∧
    (∀ method, process_total_cost cart d mNS base rs method =
      .rangeFail (largestFiniteMax rs)) := by
  have hL : (sortRanges rs).length = rs.length := sortRanges_length rs
  have hlastlt : rs.length - 1 < (sortRanges rs).length := by omega
  have hpenlt : rs.length - 2 < (sortRanges rs).length := by omega
  refine ⟨?_, ?_, ?_, ?_⟩
  · rw [getD_get _ _ _ hlastlt]
    exact sortRanges_last_sentinel rs hone hlen hlastlt
  · have hne : ((rs.filter fun r => r.max ≠ 0).map (·.max)) ≠ [] := by
      intro hnil
      have hl := congrArg List.length hnil
      rw [List.length_map, List.length_nil] at hl
      omega
    have hmem := pymax_mem _ hne
    obtain ⟨r', hr', hval⟩ := List.mem_map.mp hmem
    have hsplit := List.mem_filter.mp hr'
    exact ⟨r', hsplit.1, by simpa using hsplit.2, hval.symm ▸ rfl⟩
  · intro r hr hr0
    rw [largestFiniteMax]
    apply le_pymax
    have hfilmem : r ∈ rs.filter (fun x => decide (x.max ≠ 0)) := by
      apply List.mem_filter.mpr
      exact ⟨hr, by simpa using hr0⟩
    exact List.mem_map_of_mem (fun x => x.max) hfilmem
  · intro method
    have hnone := resolve_none_of_out_of_range rs d hone hpos hfin hlen hd method
    have hnotlt : ¬ ((sortRanges rs).length < 2) := by omega
    have hbd : ((sortRanges rs).getD ((sortRanges rs).length - 2) ⟨0, 0, 0, 0⟩).max =
        largestFiniteMax rs := by
      have hidx : (sortRanges rs).length - 2 < (sortRanges rs).length := by omega
      rw [getD_get _ _ _ hidx]
      have heq : (sortRanges rs).get ⟨(sortRanges rs).length - 2, hidx⟩ =
          (sortRanges rs).get ⟨rs.length - 2, hpenlt⟩ := by
        congr 1
        apply Fin.ext
        show (sortRanges rs).length - 2 = rs.length - 2
        omega
      rw [heq]
      exact boundary_eq_largestFiniteMax rs hone hfin hlen hpenlt
    simp only [process_total_cost, hnone]
    rw [if_neg hnotlt, hbd]

/-! ### Distance calculator -/

theorem haversine_m_symm (ulat ulon vlat vlon : ℝ) :
    haversine_m ulat ulon vlat vlon = haversine_m vlat vlon ulat ulon := by
  have hsin : ∀ p q : ℝ, Real.sin ((p - q) / 2) ^ 2 = Real.sin ((q - p) / 2) ^ 2 := by
    intro p q
    have h : (p - q) / 2 = -((q - p) / 2) := by ring
    rw [h, Real.sin_neg]
    ring
  simp only [haversine_m]
  rw [hsin (radians vlat) (radians ulat), hsin (radians vlon) (radians ulon),
    mul_comm (Real.cos (radians ulat)) (Real.cos (radians vlat))]

theorem pyround_zero : pyround 0 = 0 := by
  rw [pyround]
  rw [if_pos]
  · exact Int.floor_zero
  · rw [Int.fract_zero]
    norm_num

theorem atan2_zero_one : atan2 0 1 = 0 := by
  rw [atan2, if_pos one_pos]
  simp [Real.arctan_zero]

theorem haversine_m_self (lat lon : ℝ) : haversine_m lat lon lat lon = 0 := by
  simp [haversine_m, sub_self, zero_div, Real.sin_zero, atan2_zero_one]

theorem simple_m_self (lat lon : ℝ) : simple_m lat lon lat lon = 0 := by
  simp only [simple_m, sub_self, zero_mul, ne_eq, OfNat.ofNat_ne_zero, not_false_eq_true,
    zero_pow, add_zero, Real.sqrt_zero]

theorem calculate_distance_haversine_eq (ulat ulon vlat vlon : ℝ) :
    calculate_distance ulat ulon vlat vlon HAVERSINE =
      (pyround (haversine_m ulat ulon vlat vlon), SUCCESS) := by
  rw [calculate_distance, if_pos rfl]

theorem calculate_distance_simple_eq (ulat ulon vlat vlon : ℝ) :
    calculate_distance ulat ulon vlat vlon SIMPLE =
      (pyround (simple_m ulat ulon vlat vlon), SUCCESS) := by
  rw [calculate_distance, if_neg (by decide : ¬ (SIMPLE = HAVERSINE)), if_pos rfl]

/-- C7: `calculate_distance` is symmetric in its two coordinates under the
haversine method, and identical coordinates give distance 0 (with `SUCCESS`
status) under both the planar and the haversine method. -/
theorem C7_haversine_symm_and_identical_zero :
    (∀ ulat ulon vlat vlon : ℝ,
      calculate_distance ulat ulon vlat vlon HAVERSINE =
        calculate_distance vlat vlon ulat ulon HAVERSINE) ∧
    (∀ lat lon : ℝ,
      calculate_distance lat lon lat lon SIMPLE = (0, SUCCESS) ∧
      calculate_distance lat lon lat lon HAVERSINE = (0, SUCCESS)) := by
  constructor
  · intro ulat ulon vlat vlon
    rw [calculate_distance_haversine_eq, calculate_distance_haversine_eq, haversine_m_symm]
  · intro lat lon
    constructor
    · rw [calculate_distance_simple_eq, simple_m_self, pyround_zero]
    · rw [calculate_distance_haversine_eq, haversine_m_self, pyround_zero]

/-- C8: any method value other than `SIMPLE` and `HAVERSINE` makes
`calculate_distance` return distance 0 with `FAILURE` status — there is no
silent fallback to a default algorithm. -/
theorem C8_invalid_method (ulat ulon vlat vlon : ℝ) (m : ℤ)
    (h1 : m ≠ SIMPLE) (h2 : m ≠ HAVERSINE) :
    calculate_distance ulat ulon vlat vlon m = (0, FAILURE) := by
  simp only [calculate_distance, if_neg h2, if_neg h1]

theorem C8_invalid_method_witness :
    calculate_distance 10 20 30 40 999 = (0, FAILURE) :=
  C8_invalid_method 10 20 30 40 999 (by decide) (by decide)

/-! ### Concrete evaluations on the spec scenario schedule -/

theorem sortRanges_scenario : sortRanges scenarioSchedule = scenarioSchedule := by decide

theorem scenario_length_ok : ¬ ((sortRanges scenarioSchedule).length < 2) := by decide

theorem mkBreakdown_1200_a200 : mkBreakdown 1500 1200 1000 500 200 0 =
    ⟨2200, 0, 1500, 700, 1200⟩ := by
  rw [mkBreakdown]
  norm_num [pyInt]

theorem mkBreakdown_1200_a100 : mkBreakdown 1500 1200 1000 500 100 0 =
    ⟨2100, 0, 1500, 600, 1200⟩ := by
  rw [mkBreakdown]
  norm_num [pyInt]

theorem mkBreakdown_500_a0 : mkBreakdown 1500 500 1000 500 0 0 =
    ⟨2000, 0, 1500, 500, 500⟩ := by
  rw [mkBreakdown]
  norm_num [pyInt]

theorem mkBreakdown_500_a100 : mkBreakdown 1500 500 1000 500 100 0 =
    ⟨2100, 0, 1500, 600, 500⟩ := by
  rw [mkBreakdown]
  norm_num [pyInt]

theorem eval_scenario_O_n_1200 :
    process_total_cost 1500 1200 1000 500 scenarioSchedule .O_n =
      .ok ⟨2200, 0, 1500, 700, 1200⟩ := by
  have h : resolve 1200 (sortRanges scenarioSchedule) .O_n = some (200, 0) := by decide
  simp only [process_total_cost, h, scenario_length_ok, if_false]
  rw [mkBreakdown_1200_a200]

theorem eval_scenario_O_Log_n_1200 :
    process_total_cost 1500 1200 1000 500 scenarioSchedule .O_Log_n =
      .ok ⟨2100, 0, 1500, 600, 1200⟩ := by
  have h : resolve 1200 (sortRanges scenarioSchedule) .O_Log_n = some (100, 0) := by
    rw [sortRanges_scenario]
    simp [resolve, bisect_right, bisectAux, scenarioSchedule]
  simp only [process_total_cost, h, scenario_length_ok, if_false]
  rw [mkBreakdown_1200_a100]

theorem eval_scenario_O_n_500 :
    process_total_cost 1500 500 1000 500 scenarioSchedule .O_n =
      .ok ⟨2000, 0, 1500, 500, 500⟩ := by
  have h : resolve 500 (sortRanges scenarioSchedule) .O_n = some (0, 0) := by decide
  simp only [process_total_cost, h, scenario_length_ok, if_false]
  rw [mkBreakdown_500_a0]

theorem eval_scenario_O_1_500 :
    process_total_cost 1500 500 1000 500 scenarioSchedule .O_1 =
      .ok ⟨2100, 0, 1500, 600, 500⟩ := by
  have h : resolve 500 (sortRanges scenarioSchedule) .O_1 = some (100, 0) := by decide
  simp only [process_total_cost, h, scenario_length_ok, if_false]
  rw [mkBreakdown_500_a100]

theorem eval_scenario_O_Log_n_1500 :
    process_total_cost 1500 1500 1000 500 scenarioSchedule .O_Log_n =
      .rangeFail 2000 := by
  have h : resolve 1500 (sortRanges scenarioSchedule) .O_Log_n = none := by
    rw [sortRanges_scenario]
    simp [resolve, bisect_right, bisectAux, scenarioSchedule]
  simp only [process_total_cost, h, scenario_length_ok, if_false]
  decide

/-! ### Claim theorems on `process_total_cost` -/

/-- C1 (refuted): the three lookup strategies are *not* behaviorally
equivalent.  On the spec's own scenario schedule, at distance 1200 the
linear scan resolves tier `{1000,1500,200,0}` (fee 700 = 200 + 500) while
the binary search resolves tier `{500,1000,100,0}` (fee 600 = 100 + 500):
`bisect_right` returns 2 and the code reads `distance_ranges_dict[1]`. -/
theorem C1_strategies_disagree_at_1200 :
    process_total_cost 1500 1200 1000 500 scenarioSchedule .O_n =
      .ok ⟨2200, 0, 1500, 700, 1200⟩ ∧
    process_total_cost 1500 1200 1000 500 scenarioSchedule .O_Log_n =
      .ok ⟨2100, 0, 1500, 600, 1200⟩ ∧
    process_total_cost 1500 1200 1000 500 scenarioSchedule .O_n ≠
      process_total_cost 1500 1200 1000 500 scenarioSchedule .O_Log_n := by
  refine ⟨eval_scenario_O_n_1200, eval_scenario_O_Log_n_1200, ?_⟩
  rw [eval_scenario_O_n_1200, eval_scenario_O_Log_n_1200]
  decide

/-- C2 (refuted): boundary inclusivity does not hold for every strategy.
At distance 500 (= first tier's `max` = second tier's `min`) the linear
scan resolves the earlier tier `{0,500,0,0}` but the lookup table resolves
the later tier `{500,1000,100,0}` because the table write for the second
tier overwrites index 500; and at distance 1500 (= third tier's `max`) the
binary search does not resolve that tier at all but fails out-of-range. -/
theorem C2_boundary_inclusivity_fails :
    process_total_cost 1500 500 1000 500 scenarioSchedule .O_n =
      .ok ⟨2000, 0, 1500, 500, 500⟩ ∧
    process_total_cost 1500 500 1000 500 scenarioSchedule .O_1 =
      .ok ⟨2100, 0, 1500, 600, 500⟩ ∧
    process_total_cost 1500 500 1000 500 scenarioSchedule .O_n ≠
      process_total_cost 1500 500 1000 500 scenarioSchedule .O_1 ∧
    process_total_cost 1500 1500 1000 500 scenarioSchedule .O_Log_n =
      .rangeFail 2000 := by
  refine ⟨eval_scenario_O_n_500, eval_scenario_O_1_500, ?_, eval_scenario_O_Log_n_1500⟩
  rw [eval_scenario_O_n_500, eval_scenario_O_1_500]
  decide

/-- C4 (refuted for the default method): on the scenario inputs
(cart 1500, distance 1200, minimum 1000, base fee 500), under the default
binary-search method `process_total_cost` resolves the fee parameters
`(100, 0)` of tier `{500,1000,100,0}` — not the claimed `(200, 0)` of tier
`{1000,1500,200,0}`. -/
theorem C4_scenario_resolves_wrong_tier :
    process_total_cost 1500 1200 1000 500 scenarioSchedule METHOD_RANGE_PARSING =
      .ok (mkBreakdown 1500 1200 1000 500 100 0) ∧
    process_total_cost 1500 1200 1000 500 scenarioSchedule METHOD_RANGE_PARSING ≠
      .ok (mkBreakdown 1500 1200 1000 500 200 0) := by
  constructor
  · rw [mkBreakdown_1200_a100]
    exact eval_scenario_O_Log_n_1200
  · rw [mkBreakdown_1200_a200]
    have h : process_total_cost 1500 1200 1000 500 scenarioSchedule METHOD_RANGE_PARSING =
        .ok ⟨2100, 0, 1500, 600, 1200⟩ := eval_scenario_O_Log_n_1200
    rw [h]
    decide

/-- C5: whenever `process_total_cost` succeeds, the returned
`small_order_surcharge` equals `max 0 (order_minimum_no_surcharge - cart_value)`;
in particular it is 0 whenever the cart value reaches the minimum. -/
theorem C5_small_order_surcharge (cart d mNS base : ℤ) (rs : List DistRange)
    (method : CostMethod) (bd : Breakdown)
    (hc : 0 ≤ cart) (hm : 0 ≤ mNS)
    (hok : process_total_cost cart d mNS base rs method = .ok bd) :
    bd.small_order_surcharge = max 0 (mNS - cart) ∧
    (mNS ≤ cart → bd.small_order_surcharge = 0) := by
  have hmain : bd.small_order_surcharge = max 0 (mNS - cart) := by
    rw [process_total_cost] at hok
    by_cases hlt : (sortRanges rs).length < 2
    · rw [if_pos hlt] at hok
      exact absurd hok (by simp)
    · rw [if_neg hlt] at hok
      cases hres : resolve d (sortRanges rs) method with
      | none =>
        rw [hres] at hok
        simp at hok
      | some ab =>
        obtain ⟨a, b⟩ := ab
        rw [hres] at hok
        simp only [CostResult.ok.injEq] at hok
        rw [← hok, mkBreakdown]
  exact ⟨hmain, fun h => by rw [hmain]; omega⟩

theorem C5_small_order_surcharge_witness :
    (Breakdown.mk 2200 0 1500 700 1200).small_order_surcharge = max 0 (1000 - 1500) :=
  (C5_small_order_surcharge 1500 1200 1000 500 scenarioSchedule .O_n
    ⟨2200, 0, 1500, 700, 1200⟩ (by decide) (by decide) eval_scenario_O_n_1200).1

/-- C6: on a successful lookup resolving `(a, b)`, the delivery fee is
`a + (b * distance) / 10 + base_fee` with exact division, every output
field is truncated toward zero at construction (`pyInt` is `⌊·⌋` on
non-negatives and `-⌊-·⌋` on negatives, i.e. truncation, not rounding),
and `total_price = cart_value + small_order_surcharge + delivery_fee`
before truncation. -/
theorem C6_fee_formula_and_truncation (cart d mNS base a b : ℤ) (rs : List DistRange)
    (method : CostMethod)
    (hlen : 2 ≤ rs.length)
    (hres : resolve d (sortRanges rs) method = some (a, b)) :
    process_total_cost cart d mNS base rs method =
      .ok { total_price := pyInt ((cart : ℚ) + ((max 0 (mNS - cart) : ℤ) : ℚ) +
              ((a : ℚ) + (b : ℚ) * (d : ℚ) / 10 + (base : ℚ)))
            small_order_surcharge := max 0 (mNS - cart)
            cart_value := cart
            delivery_fee := pyInt ((a : ℚ) + (b : ℚ) * (d : ℚ) / 10 + (base : ℚ))
            delivery_distance := d } ∧
    (∀ q : ℚ, 0 ≤ q → pyInt q = ⌊q⌋) ∧
    (∀ q : ℚ, q < 0 → pyInt q = -⌊-q⌋) := by
  refine ⟨?_, ?_, ?_⟩
  · have hnotlt : ¬ ((sortRanges rs).length < 2) := by
      rw [sortRanges_length]; omega
    rw [process_total_cost, if_neg hnotlt, hres]
    rfl
  · intro q hq
    rw [pyInt, if_pos hq]
  · intro q hq
    rw [pyInt, if_neg (not_le.mpr hq), Int.floor_neg, neg_neg]

theorem C6_fee_formula_witness :
    process_total_cost 1500 1200 1000 500 scenarioSchedule .O_n =
      .ok { total_price := pyInt (((1500 : ℤ) : ℚ) + ((max 0 ((1000 : ℤ) - 1500) : ℤ) : ℚ) +
              (((200 : ℤ) : ℚ) + ((0 : ℤ) : ℚ) * ((1200 : ℤ) : ℚ) / 10 + ((500 : ℤ) : ℚ)))
            small_order_surcharge := max 0 (1000 - 1500)
            cart_value := 1500
            delivery_fee := pyInt (((200 : ℤ) : ℚ) + ((0 : ℤ) : ℚ) * ((1200 : ℤ) : ℚ) / 10 +
              ((500 : ℤ) : ℚ))
            delivery_distance := 1200 } :=
  (C6_fee_formula_and_truncation 1500 1200 1000 500 200 0 scenarioSchedule .O_n
    (by decide) (by decide)).1

/-- C9: a schedule with fewer than two entries makes `process_total_cost`
fail with an empty output for every cart value, distance and method: the
out-of-range message indexes `sorted[-2]` before any lookup, raising an
`IndexError` that the `except` handlers turn into `({}, FAILURE, ...)`. -/
theorem C9_short_schedule_always_fails (cart d mNS base : ℤ) (rs : List DistRange)
    (method : CostMethod) (h : rs.length < 2) :
    process_total_cost cart d mNS base rs method = .err := by
  have hlt : (sortRanges rs).length < 2 := by
    rw [sortRanges_length]; omega
  rw [process_total_cost, if_pos hlt]

theorem C9_short_schedule_witness :
    process_total_cost 0 0 0 0 [] .O_n = .err :=
  C9_short_schedule_always_fails 0 0 0 0 [] .O_n (by decide)

/-- C10: a schedule (of at least two entries) with no sentinel makes the
linear-scan method succeed on any distance beyond every `max`: the loop
falls through leaving `a = 0`, `b = 0`, so the delivery fee is the base
fee alone, instead of an out-of-range failure. -/
theorem C10_no_sentinel_falls_through (cart d mNS base : ℤ) (rs : List DistRange)
    (hlen : 2 ≤ rs.length)
    (hns : ∀ r ∈ rs, r.max ≠ 0)
    (hd : ∀ r ∈ rs, r.max < d) :
    process_total_cost cart d mNS base rs .O_n =
      .ok (mkBreakdown cart d mNS base 0 0) ∧
    (mkBreakdown cart d mNS base 0 0).delivery_fee = base := by
  constructor
  · have hperm := sortRanges_perm rs
    have hscan : scanRanges d (sortRanges rs) = .fellThrough :=
      scanRanges_fellThrough d _
        (fun r hr => ⟨hns r (hperm.subset hr), hd r (hperm.subset hr)⟩)
    have hres : resolve d (sortRanges rs) .O_n = some (0, 0) := by
      simp [resolve, hscan]
    have hnotlt : ¬ ((sortRanges rs).length < 2) := by
      rw [sortRanges_length]; omega
    rw [process_total_cost, if_neg hnotlt, hres]
  · norm_num [mkBreakdown, pyInt_intCast]

theorem C10_no_sentinel_witness :
    process_total_cost 10 2000 25 7 [⟨0, 500, 3, 4⟩, ⟨500, 1000, 5, 6⟩] .O_n =
      .ok (mkBreakdown 10 2000 25 7 0 0) :=
  (C10_no_sentinel_falls_through 10 2000 25 7 [⟨0, 500, 3, 4⟩, ⟨500, 1000, 5, 6⟩]
    (by decide) (by decide) (by decide)).1

theorem C3_out_of_range_witness :
    process_total_cost 1500 3000 1000 500 scenarioSchedule .O_n =
      .rangeFail (largestFiniteMax scenarioSchedule) :=
  (C3_sentinel_last_and_out_of_range scenarioSchedule 1500 3000 1000 500
    (by decide) (by decide) (by decide) (by decide) (by decide)).2.2.2 .O_n

end Wolt
